import Mathlib

/-!
Shallow embedding of the coin-toss game logic of the dimes-api backend.

The relational store is modelled as lists of rows (`Db`); each route handler
becomes a pure function from a `Db` (plus the request data and the current
time in milliseconds) to a result value and an updated `Db`.  Text payloads
(prize descriptions, image URLs) are abstracted as integers; timestamps are
integers (milliseconds); all SQL `int` columns are `Int`.

JavaScript `x || d` on numbers is modelled by `jsOr` (`0` is falsy), and
`x || d` on a nullable value by `jsOrOpt`.
-/

namespace DimesApi

inductive CoinResult
  | heads
  | tails
deriving DecidableEq, Repr

/-- Row of `coin_toss_settings` (db/schema.ts). -/
structure Settings where
  minStreakForLeaderboard : Int
  competitionDurationHours : Int
  maxFlipsPerMinute : Int
  dailyFailLimit : Int
deriving DecidableEq, Repr

/-- Row of `coin_toss_competitions` (db/schema.ts, plus the
`requires_address` column added by migration 003). -/
structure Competition where
  id : Nat
  startTime : Int
  endTime : Int
  isActive : Bool
  totalPlayers : Int
  totalFlips : Int
  prizeText : Option Int
  prizeImageUrl : Option Int
  requiresAddress : Bool
  winnersSelected : Bool
  prizeDelivered : Bool
  winnerUserId : Option Nat
deriving DecidableEq, Repr

/-- Row of `coin_toss_sessions` (db/schema.ts). -/
structure Session where
  id : Nat
  competitionId : Nat
  userId : Nat
  totalFlips : Int
  totalHeads : Int
  totalTails : Int
  currentStreak : Int
  bestHeadsStreak : Int
  bestTailsStreak : Int
  dailyFailsUsed : Int
  lastFlipAt : Option Int
deriving DecidableEq, Repr

/-- Row of `coin_toss_flips` (db/schema.ts). -/
structure Flip where
  id : Nat
  sessionId : Nat
  userId : Nat
  result : CoinResult
  streakCount : Int
  flippedAt : Int
deriving DecidableEq, Repr

inductive AchievementType
  | streak5
  | streak10
  | streak15
  | streak20
deriving DecidableEq, Repr

/-- Row of `coin_toss_achievements` (db/schema.ts). -/
structure Achievement where
  sessionId : Nat
  userId : Nat
  achievementType : AchievementType
  streakValue : Int
  achievedAt : Int
deriving DecidableEq, Repr

/-- Row of `coin_toss_winners` (db/schema.ts). -/
structure Winner where
  competitionId : Nat
  userId : Nat
  finalStreak : Int
  position : Nat
  selectedById : Nat
deriving DecidableEq, Repr

/-- Row of `coin_toss_preset_prizes` (db/schema.ts, plus the
`requires_address` column added by migration 002). -/
structure PresetPrize where
  id : Nat
  description : Int
  imageUrl : Option Int
  isDefault : Bool
  isActive : Bool
  requiresAddress : Bool
deriving DecidableEq, Repr

/-- The whole relational store.  The settings table is used as a singleton
(`select ... limit 1`) by every handler, so it is modelled as an `Option`.
`next*Id` model the AUTO_INCREMENT counters. -/
structure Db where
  settings : Option Settings
  competitions : List Competition
  sessions : List Session
  flips : List Flip
  achievements : List Achievement
  winners : List Winner
  prizes : List PresetPrize
  nextCompetitionId : Nat
  nextSessionId : Nat
  nextFlipId : Nat
deriving DecidableEq, Repr

/-- JavaScript `x || d` on a number: `0` is falsy. -/
def jsOr (v d : Int) : Int := if v = 0 then d else v

/-- JavaScript `x || d` on a nullable number. -/
def jsOrOpt (o : Option Int) (d : Int) : Int :=
  match o with
  | none => d
  | some v => jsOr v d

/-- `Math.abs` on an integer. -/
def intAbs (n : Int) : Int := if n < 0 then -n else n

/-- The active-competition query shared by flip.ts, competition.ts and
leaderboard.ts: `isActive = true AND startTime <= now AND endTime >= now`,
`limit 1`. -/
def findActiveCompetition (comps : List Competition) (now : Int) : Option Competition :=
  comps.find? fun c => c.isActive && decide (c.startTime ≤ now) && decide (now ≤ c.endTime)

/-- Session lookup by `(competitionId, userId)`, `limit 1`. -/
def findSession (sessions : List Session) (competitionId userId : Nat) : Option Session :=
  sessions.find? fun s => s.competitionId == competitionId && s.userId == userId

/-- Competition lookup by primary key. -/
def findCompetitionById (comps : List Competition) (competitionId : Nat) : Option Competition :=
  comps.find? fun c => c.id == competitionId

/-- `settings?.minStreakForLeaderboard || 5`, the effective leaderboard
threshold used by competitions.ts and leaderboard.ts. -/
def minStreakSetting (db : Db) : Int :=
  match db.settings with
  | some s => jsOr s.minStreakForLeaderboard 5
  | none => 5

/-! ## Flip engine (routes/cointoss/flip.ts, `recordFlip`) -/

/-- The defaults inserted by flip.ts when the settings row is absent
(flip.ts lines 27-38). -/
def flipDefaultSettings : Settings :=
  { minStreakForLeaderboard := 5
    competitionDurationHours := 24
    maxFlipsPerMinute := 240
    dailyFailLimit := 3 }

/-- flip.ts lines 26-38: read the settings row, inserting defaults when it
is missing. -/
def getOrCreateSettings (db : Db) : Settings × Db :=
  match db.settings with
  | some s => (s, db)
  | none => (flipDefaultSettings, { db with settings := some flipDefaultSettings })

/-- flip.ts lines 61-107: read the user's session for the competition; when
absent, insert a zeroed session and increment the competition's
`totalPlayers`. -/
def freshSession (sid competitionId userId : Nat) : Session :=
  { id := sid
    competitionId := competitionId
    userId := userId
    totalFlips := 0
    totalHeads := 0
    totalTails := 0
    currentStreak := 0
    bestHeadsStreak := 0
    bestTailsStreak := 0
    dailyFailsUsed := 0
    lastFlipAt := none }

def getOrCreateSession (db : Db) (competition : Competition) (userId : Nat) : Session × Db :=
  match findSession db.sessions competition.id userId with
  | some s => (s, db)
  | none =>
    let s : Session := freshSession db.nextSessionId competition.id userId
    (s, { db with
            sessions := db.sessions ++ [s]
            nextSessionId := db.nextSessionId + 1
            competitions := db.competitions.map fun c =>
              if c.id = competition.id then { c with totalPlayers := c.totalPlayers + 1 } else c })

/-- flip.ts lines 109-119: the per-session rate limit.  The source compares
`now - lastFlipAt < Math.max(250, 60000 / (maxFlipsPerMinute || 240))` with
real-number division; for a positive divisor `m` the comparison of the
integer elapsed time against `60000 / m` is equivalent to
`elapsed * m < 60000`, which is what is used here. -/
def flipRateLimited (settings : Settings) (userSession : Session) (now : Int) : Bool :=
  match userSession.lastFlipAt with
  | none => false
  | some t =>
    let timeSinceLastFlip := now - t
    let m := jsOr settings.maxFlipsPerMinute 240
    if 0 < m then timeSinceLastFlip < 250 || timeSinceLastFlip * m < 60000
    else timeSinceLastFlip < 250

/-- The streak-milestone table of flip.ts lines 198-203. -/
def streakMilestones : List (Int × AchievementType) :=
  [(5, .streak5), (10, .streak10), (15, .streak15), (20, .streak20)]

/-- The session part of a successful flip response (flip.ts lines 242-251,
without the derived win-rate string). -/
structure SessionSnapshot where
  totalFlips : Int
  totalHeads : Int
  totalTails : Int
  currentStreak : Int
  bestHeadsStreak : Int
  bestTailsStreak : Int
  dailyFailsUsed : Int
deriving DecidableEq, Repr

/-- flip.ts lines 196-239: for each milestone matched exactly by a positive
new streak, insert an achievement unless one of that type already exists
for the session. -/
def achievementStep (sessionId userId : Nat) (newStreak : Int) (now : Int)
    (acc : Db) (m : Int × AchievementType) : Db :=
  if intAbs newStreak = m.1 ∧ 0 < newStreak then
    match acc.achievements.find? (fun a =>
        a.sessionId == sessionId && a.achievementType == m.2) with
    | some _ => acc
    | none =>
      { acc with achievements := acc.achievements ++
          [{ sessionId := sessionId, userId := userId, achievementType := m.2,
             streakValue := m.1, achievedAt := now }] }
  else acc

def applyAchievements (db : Db) (sessionId userId : Nat) (newStreak : Int) (now : Int) : Db :=
  streakMilestones.foldl (achievementStep sessionId userId newStreak now) db

inductive FlipOutcome
  | noActiveCompetition
  | tooFast
  | dailyLimitReached
  | success (result : CoinResult) (streakCount : Int) (session : SessionSnapshot)
deriving DecidableEq, Repr

def FlipOutcome.isSuccess : FlipOutcome → Bool
  | .success _ _ _ => true
  | _ => false

/-- flip.ts `recordFlip`, for an authenticated user.  The random draw
(line 122) is passed in as `outcome`. -/
def recordFlip (db : Db) (userId : Nat) (now : Int) (outcome : CoinResult) :
    FlipOutcome × Db :=
  let sp := getOrCreateSettings db
  let settings := sp.1
  let db0 := sp.2
  match findActiveCompetition db0.competitions now with
  | none => (.noActiveCompetition, db0)
  | some competition =>
    let up := getOrCreateSession db0 competition userId
    let userSession := up.1
    let db1 := up.2
    if flipRateLimited settings userSession now then (.tooFast, db1)
    else
      let dailyFailsUsed := userSession.dailyFailsUsed
      if outcome = .tails ∧ jsOr settings.dailyFailLimit 3 ≤ dailyFailsUsed then
        (.dailyLimitReached, db1)
      else
        -- streak update, flip.ts lines 136-152
        let currentStreakType := userSession.currentStreak
        let newStreak : Int :=
          match outcome with
          | .heads => if 0 < currentStreakType then currentStreakType + 1 else 1
          | .tails => if currentStreakType < 0 then currentStreakType - 1 else -1
        let newBestHeadsStreak :=
          if outcome = .heads ∧ 0 < newStreak then
            max userSession.bestHeadsStreak newStreak
          else userSession.bestHeadsStreak
        let newBestTailsStreak :=
          if outcome = .tails ∧ newStreak < 0 then
            max userSession.bestTailsStreak (intAbs newStreak)
          else userSession.bestTailsStreak
        -- insert the flip record, lines 154-163
        let flip : Flip :=
          { id := db1.nextFlipId
            sessionId := userSession.id
            userId := userId
            result := outcome
            streakCount := intAbs newStreak
            flippedAt := now }
        let db2 := { db1 with flips := db1.flips ++ [flip], nextFlipId := db1.nextFlipId + 1 }
        -- update the session row, lines 173-186
        let updatedRow : Session :=
          { userSession with
              totalFlips := userSession.totalFlips + 1
              totalHeads := if outcome = .heads then userSession.totalHeads + 1
                            else userSession.totalHeads
              totalTails := if outcome = .tails then userSession.totalTails + 1
                            else userSession.totalTails
              currentStreak := newStreak
              bestHeadsStreak := newBestHeadsStreak
              bestTailsStreak := newBestTailsStreak
              dailyFailsUsed := if outcome = .tails then dailyFailsUsed + 1 else dailyFailsUsed
              lastFlipAt := some now }
        let db3 := { db2 with
                       sessions := db2.sessions.map fun t : Session =>
                         if t.id = userSession.id then updatedRow else t }
        -- update the competition's totalFlips, lines 189-194
        let db4 := { db3 with
                       competitions := db3.competitions.map fun c : Competition =>
                         if c.id = competition.id then { c with totalFlips := c.totalFlips + 1 }
                         else c }
        -- achievement check, lines 196-239
        let db5 := applyAchievements db4 userSession.id userId newStreak now
        let snapshot : SessionSnapshot :=
          { totalFlips := userSession.totalFlips + 1
            totalHeads := if outcome = .heads then userSession.totalHeads + 1
                          else userSession.totalHeads
            totalTails := if outcome = .tails then userSession.totalTails + 1
                          else userSession.totalTails
            currentStreak := newStreak
            bestHeadsStreak := newBestHeadsStreak
            bestTailsStreak := newBestTailsStreak
            dailyFailsUsed := if outcome = .tails then dailyFailsUsed + 1 else dailyFailsUsed }
        (.success outcome (intAbs newStreak) snapshot, db5)

/-! ## Competition manager (routes/cointoss/competition.ts, `getCompetition`) -/

/-- `ORDER BY id DESC LIMIT 1` over the competitions with `isActive = true`,
used to re-read a freshly inserted competition. -/
def findNewestActive (comps : List Competition) : Option Competition :=
  (comps.filter fun c => c.isActive).foldl
    (fun best c =>
      match best with
      | none => some c
      | some b => if b.id < c.id then some c else some b)
    none

/-- The default-prize lookup of competition.ts: `isDefault = true AND
isActive = true`, `limit 1`. -/
def defaultPrizeLookup (prizes : List PresetPrize) : Option PresetPrize :=
  prizes.find? fun p => p.isDefault && p.isActive

def hourMs : Int := 60 * 60 * 1000

/-- A fresh competition row as inserted by competition.ts: it always starts
now and ends 24 hours later (`now.getTime() + 24 * 60 * 60 * 1000`). -/
def newCompetitionRow (idv : Nat) (now : Int) (prizeText prizeImageUrl : Option Int)
    (requiresAddress : Bool) : Competition :=
  { id := idv
    startTime := now
    endTime := now + 24 * hourMs
    isActive := true
    totalPlayers := 0
    totalFlips := 0
    prizeText := prizeText
    prizeImageUrl := prizeImageUrl
    requiresAddress := requiresAddress
    winnersSelected := false
    prizeDelivered := false
    winnerUserId := none }

def insertCompetition (db : Db) (c : Competition) : Db :=
  { db with
      competitions := db.competitions ++ [c]
      nextCompetitionId := db.nextCompetitionId + 1 }

/-- competition.ts `getCompetition` (the get-or-create endpoint): find the
active competition covering `now`; when none exists, insert one ending 24
hours from now, with no prize fields, and re-read the newest active row;
when the resulting competition has already ended, mark it inactive and
replace it with a fresh one that copies the catalog's default prize. -/
def getCompetition (db : Db) (now : Int) : Option Competition × Db :=
  let pair1 : Option Competition × Db :=
    match findActiveCompetition db.competitions now with
    | some c => (some c, db)
    | none =>
      let db1 := insertCompetition db (newCompetitionRow db.nextCompetitionId now none none false)
      (findNewestActive db1.competitions, db1)
  match pair1.1 with
  | none => (none, pair1.2)
  | some competition =>
    if competition.endTime < now then
      let db2 := { pair1.2 with
                     competitions := pair1.2.competitions.map fun c : Competition =>
                       if c.id = competition.id then { c with isActive := false } else c }
      let dp := defaultPrizeLookup db2.prizes
      let prizeText := dp.map (·.description)
      let prizeImageUrl := dp.bind (·.imageUrl)
      let requiresAddress := (dp.map (·.requiresAddress)).getD false
      let db3 := insertCompetition db2
        (newCompetitionRow db2.nextCompetitionId now prizeText prizeImageUrl requiresAddress)
      (findNewestActive db3.competitions, db3)
    else (some competition, pair1.2)

/-! ## Settings store (routes/cointoss/settings.ts, `updateSettings`) -/

/-- The partial body of a `PUT /settings` request. -/
structure SettingsUpdate where
  minStreakForLeaderboard : Option Int
  competitionDurationHours : Option Int
  maxFlipsPerMinute : Option Int
  dailyFailLimit : Option Int
deriving DecidableEq, Repr

inductive SettingsField
  | minStreakForLeaderboard
  | competitionDurationHours
  | maxFlipsPerMinute
  | dailyFailLimit
deriving DecidableEq, Repr

inductive UpdateSettingsResult
  | invalid (field : SettingsField)
  | ok (settings : Settings)
deriving DecidableEq, Repr

def UpdateSettingsResult.isInvalid : UpdateSettingsResult → Bool
  | .invalid _ => true
  | .ok _ => false

/-- `updates.x && updates.x < 1` — the validation guard of settings.ts for
the three fields with a `>= 1` range.  A provided `0` is falsy in
JavaScript, so the guard does not fire on it. -/
def failsMinOneCheck (o : Option Int) : Bool :=
  match o with
  | some v => !(v = 0) && v < 1
  | none => false

/-- `updates.dailyFailLimit !== undefined && updates.dailyFailLimit < 0`. -/
def failsNonNegCheck (o : Option Int) : Bool :=
  match o with
  | some v => v < 0
  | none => false

/-- settings.ts `updateSettings` (lines 43-112): validate each provided
field, then create the row with defaults merged in, or apply exactly the
provided fields to the existing row. -/
def updateSettings (db : Db) (updates : SettingsUpdate) : UpdateSettingsResult × Db :=
  if failsMinOneCheck updates.minStreakForLeaderboard then
    (.invalid .minStreakForLeaderboard, db)
  else if failsMinOneCheck updates.competitionDurationHours then
    (.invalid .competitionDurationHours, db)
  else if failsMinOneCheck updates.maxFlipsPerMinute then
    (.invalid .maxFlipsPerMinute, db)
  else if failsNonNegCheck updates.dailyFailLimit then
    (.invalid .dailyFailLimit, db)
  else
    match db.settings with
    | none =>
      let created : Settings :=
        { minStreakForLeaderboard := jsOrOpt updates.minStreakForLeaderboard 5
          competitionDurationHours := jsOrOpt updates.competitionDurationHours 24
          maxFlipsPerMinute := jsOrOpt updates.maxFlipsPerMinute 60
          dailyFailLimit := (updates.dailyFailLimit).getD 3 }
      (.ok created, { db with settings := some created })
    | some settings =>
      let merged : Settings :=
        { minStreakForLeaderboard :=
            (updates.minStreakForLeaderboard).getD settings.minStreakForLeaderboard
          competitionDurationHours :=
            (updates.competitionDurationHours).getD settings.competitionDurationHours
          maxFlipsPerMinute := (updates.maxFlipsPerMinute).getD settings.maxFlipsPerMinute
          dailyFailLimit := (updates.dailyFailLimit).getD settings.dailyFailLimit }
      (.ok merged, { db with settings := some merged })

/-! ## Winner selection (routes/cointoss/competitions.ts and winners.ts) -/

/-- Insertion step of the stable descending sort on the best-heads-streak
key: a session is inserted after every earlier session whose streak is at
least as large. -/
def insertByStreakDesc (s : Session) : List Session → List Session
  | [] => [s]
  | t :: ts =>
    if t.bestHeadsStreak ≤ s.bestHeadsStreak then s :: t :: ts
    else t :: insertByStreakDesc s ts

/-- `ORDER BY bestHeadsStreak DESC` (competitions.ts lines 338-351): a
stable sort on the best-heads-streak key. -/
def sessionsByBestStreakDesc : List Session → List Session
  | [] => []
  | s :: ss => insertByStreakDesc s (sessionsByBestStreakDesc ss)

/-- The eligible sessions of a competition:
`competitionId = cid AND bestHeadsStreak >= minStreak`. -/
def eligibleSessions (sessions : List Session) (competitionId : Nat) (minStreak : Int) :
    List Session :=
  sessions.filter fun s => s.competitionId == competitionId && decide (minStreak ≤ s.bestHeadsStreak)

/-- The `topPlayers` query of competitions.ts: eligible sessions ordered by
best-heads-streak descending, `limit topCount`. -/
def topPlayers (sessions : List Session) (competitionId : Nat) (minStreak : Int)
    (topCount : Nat) : List Session :=
  (sessionsByBestStreakDesc (eligibleSessions sessions competitionId minStreak)).take topCount

/-- The winner rows built from a top-players list: positions `1..N` in list
order, `finalStreak` copied from the session. -/
def winnersFromTop (competitionId : Nat) (adminId : Nat) (top : List Session) : List Winner :=
  top.enum.map fun ip =>
    { competitionId := competitionId
      userId := ip.2.userId
      finalStreak := ip.2.bestHeadsStreak
      position := ip.1 + 1
      selectedById := adminId }

inductive AutoSelectResult
  | notFound
  | stillActive
  | alreadySelected
  | noEligiblePlayers
  | selected (winners : List Winner)
deriving DecidableEq, Repr

/-- competitions.ts `autoSelectWinners` (lines 289-392). -/
def autoSelectWinners (db : Db) (competitionId : Nat) (topCount : Nat) (adminId : Nat) :
    AutoSelectResult × Db :=
  match findCompetitionById db.competitions competitionId with
  | none => (.notFound, db)
  | some competition =>
    if competition.isActive then (.stillActive, db)
    else if competition.winnersSelected then (.alreadySelected, db)
    else
      let minStreak := minStreakSetting db
      let top := topPlayers db.sessions competitionId minStreak topCount
      if top.isEmpty then (.noEligiblePlayers, db)
      else
        let winnersData := winnersFromTop competitionId adminId top
        let db1 := { db with winners := db.winners ++ winnersData }
        let db2 := { db1 with
                       competitions := db1.competitions.map fun c : Competition =>
                         if c.id = competitionId then
                           { c with winnersSelected := true,
                                    winnerUserId := (top.head?).map (·.userId) }
                         else c }
        (.selected winnersData, db2)

/-- One entry of the body of `POST /competitions/:id/winners`. -/
structure WinnerInput where
  userId : Nat
  finalStreak : Option Int
deriving DecidableEq, Repr

inductive SelectWinnersResult
  | invalidWinners
  | notFound
  | stillActive
  | selected (winners : List Winner)
deriving DecidableEq, Repr

/-- winners.ts `selectCompetitionWinners` (lines 50-185): validate the
request, delete all existing winner rows of the competition, insert the
admin-supplied winners with positions `1..N`, and mark `winnersSelected`.
`finalStreak` is `winner.finalStreak || session?.bestHeadsStreak || 0`
(JavaScript `||`, so a provided `0` falls through). -/
def selectCompetitionWinners (db : Db) (competitionId : Nat) (winners : List WinnerInput)
    (adminId : Nat) : SelectWinnersResult × Db :=
  if winners.isEmpty then (.invalidWinners, db)
  else if winners.any fun w => w.userId = 0 then (.invalidWinners, db)
  else
    match findCompetitionById db.competitions competitionId with
    | none => (.notFound, db)
    | some competition =>
      if competition.isActive then (.stillActive, db)
      else
        let db1 := { db with
                       winners := db.winners.filter fun w => !(w.competitionId == competitionId) }
        let winnersWithStreaks : List Winner := winners.enum.map fun iw =>
          let sessionStreak : Option Int :=
            (findSession db1.sessions competitionId iw.2.userId).map (·.bestHeadsStreak)
          { competitionId := competitionId
            userId := iw.2.userId
            finalStreak := jsOrOpt iw.2.finalStreak (jsOrOpt sessionStreak 0)
            position := iw.1 + 1
            selectedById := adminId }
        let db2 := { db1 with winners := db1.winners ++ winnersWithStreaks }
        let db3 := { db2 with
                       competitions := db2.competitions.map fun c : Competition =>
                         if c.id = competitionId then { c with winnersSelected := true } else c }
        (.selected winnersWithStreaks, db3)

/-! ## Batch expiry sweep (competitions.ts, `processExpiredCompetitions`) -/

/-- The query of competitions.ts lines 408-416:
`isActive = true AND endTime <= now`. -/
def expiredActive (comps : List Competition) (now : Int) : List Competition :=
  comps.filter fun c => c.isActive && decide (c.endTime ≤ now)

/-- One iteration of the loop of competitions.ts lines 420-470: mark the
competition inactive; when its snapshot had `winnersSelected = false`,
auto-select the top 3 eligible sessions as winners. -/
def processOneExpired (minStreak : Int) (adminId : Nat) (db : Db)
    (competition : Competition) : Db :=
  let db1 := { db with
                 competitions := db.competitions.map fun c : Competition =>
                   if c.id = competition.id then { c with isActive := false } else c }
  if competition.winnersSelected then db1
  else
    let top := topPlayers db1.sessions competition.id minStreak 3
    if top.isEmpty then db1
    else
      let winnersData := winnersFromTop competition.id adminId top
      let db2 := { db1 with winners := db1.winners ++ winnersData }
      { db2 with
          competitions := db2.competitions.map fun c : Competition =>
            if c.id = competition.id then
              { c with winnersSelected := true, winnerUserId := (top.head?).map (·.userId) }
            else c }

/-- competitions.ts `processExpiredCompetitions` (lines 395-484). -/
def processExpiredCompetitions (db : Db) (now : Int) (adminId : Nat) : Db :=
  let minStreak := minStreakSetting db
  (expiredActive db.competitions now).foldl (processOneExpired minStreak adminId) db

/-! ## Prize catalog (routes/cointoss/prizes.ts, `setDefaultPresetPrize`) -/

/-- prizes.ts `setDefaultPresetPrize` (lines 163-197): clear `isDefault` on
every row that has it, then set it on the row with the given id. -/
def setDefaultPresetPrize (db : Db) (prizeId : Nat) : Db :=
  let cleared := db.prizes.map fun p : PresetPrize =>
    if p.isDefault then { p with isDefault := false } else p
  { db with
      prizes := cleared.map fun p : PresetPrize =>
        if p.id = prizeId then { p with isDefault := true } else p }

/-! ## Public leaderboard (routes/cointoss/leaderboard.ts) -/

/-- The user-rank part of leaderboard.ts `getLeaderboard` (lines 92-133),
for an authenticated user and an already-located competition: the rank is
defined only when the user's session meets the threshold, and is one plus
the number of sessions of the competition that meet the threshold and are
strictly ahead of the user (greater best-heads-streak, or equal streak and
greater total-heads). -/
def getLeaderboardUserRank (db : Db) (competition : Competition) (userId : Nat) :
    Option Nat :=
  let minStreak := minStreakSetting db
  match findSession db.sessions competition.id userId with
  | none => none
  | some userSession =>
    if minStreak ≤ userSession.bestHeadsStreak then
      let betterUsers := db.sessions.countP fun s =>
        s.competitionId == competition.id &&
        decide (minStreak ≤ s.bestHeadsStreak) &&
        (decide (userSession.bestHeadsStreak < s.bestHeadsStreak) ||
         (s.bestHeadsStreak == userSession.bestHeadsStreak &&
          decide (userSession.totalHeads < s.totalHeads)))
      some (betterUsers + 1)
    else none

/-! ## Helper lemmas -/

theorem getOrCreateSettings_competitions (db : Db) :
    (getOrCreateSettings db).2.competitions = db.competitions := by
  unfold getOrCreateSettings; cases db.settings <;> rfl

theorem getOrCreateSettings_sessions (db : Db) :
    (getOrCreateSettings db).2.sessions = db.sessions := by
  unfold getOrCreateSettings; cases db.settings <;> rfl

theorem getOrCreateSettings_flips (db : Db) :
    (getOrCreateSettings db).2.flips = db.flips := by
  unfold getOrCreateSettings; cases db.settings <;> rfl

theorem getOrCreateSettings_winners (db : Db) :
    (getOrCreateSettings db).2.winners = db.winners := by
  unfold getOrCreateSettings; cases db.settings <;> rfl

theorem getOrCreateSession_found (db : Db) (c : Competition) (userId : Nat) (s : Session)
    (h : findSession db.sessions c.id userId = some s) :
    getOrCreateSession db c userId = (s, db) := by
  unfold getOrCreateSession; rw [h]

theorem getOrCreateSession_none (db : Db) (c : Competition) (userId : Nat)
    (h : findSession db.sessions c.id userId = none) :
    getOrCreateSession db c userId =
      (freshSession db.nextSessionId c.id userId,
       { db with
           sessions := db.sessions ++ [freshSession db.nextSessionId c.id userId]
           nextSessionId := db.nextSessionId + 1
           competitions := db.competitions.map fun cc =>
             if cc.id = c.id then { cc with totalPlayers := cc.totalPlayers + 1 } else cc }) := by
  unfold getOrCreateSession; rw [h]

theorem achievementStep_shape (sessionId userId : Nat) (newStreak : Int) (now : Int)
    (acc : Db) (m : Int × AchievementType) :
    (achievementStep sessionId userId newStreak now acc m).sessions = acc.sessions ∧
    (achievementStep sessionId userId newStreak now acc m).competitions = acc.competitions ∧
    (achievementStep sessionId userId newStreak now acc m).flips = acc.flips ∧
    (achievementStep sessionId userId newStreak now acc m).winners = acc.winners := by
  unfold achievementStep
  split
  · split <;> exact ⟨rfl, rfl, rfl, rfl⟩
  · exact ⟨rfl, rfl, rfl, rfl⟩

theorem applyAchievements_foldl_shape (ms : List (Int × AchievementType)) (db : Db)
    (sessionId userId : Nat) (newStreak : Int) (now : Int) :
    (ms.foldl (achievementStep sessionId userId newStreak now) db).sessions = db.sessions ∧
    (ms.foldl (achievementStep sessionId userId newStreak now) db).competitions =
      db.competitions ∧
    (ms.foldl (achievementStep sessionId userId newStreak now) db).flips = db.flips ∧
    (ms.foldl (achievementStep sessionId userId newStreak now) db).winners = db.winners := by
  induction ms generalizing db with
  | nil => exact ⟨rfl, rfl, rfl, rfl⟩
  | cons m rest ih =>
    rw [List.foldl_cons]
    obtain ⟨i1, i2, i3, i4⟩ := ih (achievementStep sessionId userId newStreak now db m)
    obtain ⟨s1, s2, s3, s4⟩ := achievementStep_shape sessionId userId newStreak now db m
    exact ⟨i1.trans s1, i2.trans s2, i3.trans s3, i4.trans s4⟩

theorem applyAchievements_sessions (db : Db) (sessionId userId : Nat)
    (newStreak : Int) (now : Int) :
    (applyAchievements db sessionId userId newStreak now).sessions = db.sessions :=
  (applyAchievements_foldl_shape _ db sessionId userId newStreak now).1

theorem applyAchievements_competitions (db : Db) (sessionId userId : Nat)
    (newStreak : Int) (now : Int) :
    (applyAchievements db sessionId userId newStreak now).competitions = db.competitions :=
  (applyAchievements_foldl_shape _ db sessionId userId newStreak now).2.1

theorem applyAchievements_flips (db : Db) (sessionId userId : Nat)
    (newStreak : Int) (now : Int) :
    (applyAchievements db sessionId userId newStreak now).flips = db.flips :=
  (applyAchievements_foldl_shape _ db sessionId userId newStreak now).2.2.1

theorem applyAchievements_winners (db : Db) (sessionId userId : Nat)
    (newStreak : Int) (now : Int) :
    (applyAchievements db sessionId userId newStreak now).winners = db.winners :=
  (applyAchievements_foldl_shape _ db sessionId userId newStreak now).2.2.2

theorem findSession_mem (sessions : List Session) (cid uid : Nat) (s : Session)
    (h : findSession sessions cid uid = some s) : s ∈ sessions :=
  List.mem_of_find?_eq_some h

theorem findSession_props (sessions : List Session) (cid uid : Nat) (s : Session)
    (h : findSession sessions cid uid = some s) :
    s.competitionId = cid ∧ s.userId = uid := by
  have := List.find?_some h
  simp only [Bool.and_eq_true, beq_iff_eq] at this
  exact this

theorem findSession_none_mem (sessions : List Session) (cid uid : Nat)
    (h : findSession sessions cid uid = none) :
    ∀ t ∈ sessions, ¬(t.competitionId = cid ∧ t.userId = uid) := by
  intro t ht hcontra
  have := List.find?_eq_none.mp h t ht
  simp only [Bool.and_eq_true, beq_iff_eq] at this
  exact this ⟨hcontra.1, hcontra.2⟩

/-- The streak-update rule exactly as the specification words it
(spec 4.3 step 6): heads extends a positive run or resets to 1, tails
extends a negative run or resets to -1. -/
def streakUpdateSpec (previous : Int) (outcome : CoinResult) : Int :=
  match outcome with
  | .heads => if 0 < previous then previous + 1 else 1
  | .tails => if previous < 0 then previous - 1 else -1

/-- The streak the session holds before the flip: the stored value of the
user's session for the active competition, or 0 when no session exists
yet. -/
def prevStreak (db : Db) (userId : Nat) (now : Int) : Int :=
  match findActiveCompetition db.competitions now with
  | none => 0
  | some c =>
    match findSession db.sessions c.id userId with
    | some s => s.currentStreak
    | none => 0

/-! ## Concrete example states used by witnesses and counterexamples -/

def exSettings : Settings :=
  { minStreakForLeaderboard := 5
    competitionDurationHours := 24
    maxFlipsPerMinute := 240
    dailyFailLimit := 3 }

def exComp : Competition :=
  { id := 1
    startTime := 0
    endTime := 1000000000
    isActive := true
    totalPlayers := 1
    totalFlips := 3
    prizeText := none
    prizeImageUrl := none
    requiresAddress := false
    winnersSelected := false
    prizeDelivered := false
    winnerUserId := none }

def exSession : Session :=
  { id := 1
    competitionId := 1
    userId := 7
    totalFlips := 3
    totalHeads := 1
    totalTails := 2
    currentStreak := -2
    bestHeadsStreak := 1
    bestTailsStreak := 2
    dailyFailsUsed := 2
    lastFlipAt := some 10 }

def exDb : Db :=
  { settings := some exSettings
    competitions := [exComp]
    sessions := [exSession]
    flips := []
    achievements := []
    winners := []
    prizes := []
    nextCompetitionId := 2
    nextSessionId := 2
    nextFlipId := 1 }

/-! ## C1: streak update of an accepted flip -/

/-- C1: for every accepted flip, the new `currentStreak` follows the
signed run-length rule of the specification: heads extends a positive
previous streak by one and otherwise resets to 1; tails extends a negative
previous streak by minus one and otherwise resets to -1.  The rule holds
both for the session snapshot returned in the response and for the session
row stored for the user in the resulting state. -/
theorem flip_streak_update (db : Db) (userId : Nat) (now : Int) (outcome : CoinResult)
    (r : CoinResult) (cnt : Int) (snap : SessionSnapshot) (db' : Db) (c : Competition)
    (hc : findActiveCompetition db.competitions now = some c)
    (hU : ∀ t₁ ∈ db.sessions, ∀ t₂ ∈ db.sessions,
        t₁.competitionId = t₂.competitionId → t₁.userId = t₂.userId → t₁ = t₂)
    (h : recordFlip db userId now outcome = (.success r cnt snap, db')) :
    snap.currentStreak = streakUpdateSpec (prevStreak db userId now) outcome ∧
    ∀ t ∈ db'.sessions, t.competitionId = c.id → t.userId = userId →
      t.currentStreak = streakUpdateSpec (prevStreak db userId now) outcome := by
  have hprev : prevStreak db userId now =
      (match findSession db.sessions c.id userId with
       | some s => s.currentStreak
       | none => 0) := by
    unfold prevStreak; rw [hc]
  simp only [recordFlip] at h
  rw [getOrCreateSettings_competitions, hc] at h
  dsimp only at h
  rcases hsf : findSession db.sessions c.id userId with _ | s
  · -- the session is created by this request; its previous streak is 0
    have hsf0 : findSession (getOrCreateSettings db).2.sessions c.id userId = none := by
      rw [getOrCreateSettings_sessions]; exact hsf
    rw [getOrCreateSession_none _ _ _ hsf0] at h
    dsimp only at h
    split at h
    · exact absurd h (by simp)
    split at h
    · exact absurd h (by simp)
    rw [Prod.mk.injEq] at h
    obtain ⟨h1, h2⟩ := h
    injection h1 with e1 e2 e3
    subst e3
    subst h2
    rw [hprev, hsf]
    constructor
    · dsimp only [freshSession]
      cases outcome <;> simp [streakUpdateSpec]
    · intro t ht hcid huid
      rw [applyAchievements_sessions] at ht
      dsimp only at ht
      rw [getOrCreateSettings_sessions] at ht
      rcases List.mem_map.mp ht with ⟨t₀, ht₀, rfl⟩
      by_cases he : t₀.id = (freshSession (getOrCreateSettings db).2.nextSessionId c.id userId).id
      · simp only [he, if_pos rfl, freshSession] at *
        cases outcome <;> simp [streakUpdateSpec]
      · rw [if_neg he] at hcid huid ⊢
        rcases List.mem_append.mp ht₀ with hin | hone
        · exact absurd ⟨hcid, huid⟩ (findSession_none_mem _ _ _ hsf t₀ hin)
        · rw [List.mem_singleton] at hone
          subst hone
          exact absurd rfl he
  · -- the session already exists; its previous streak is the stored one
    have hsf0 : findSession (getOrCreateSettings db).2.sessions c.id userId = some s := by
      rw [getOrCreateSettings_sessions]; exact hsf
    rw [getOrCreateSession_found _ _ _ _ hsf0] at h
    dsimp only at h
    split at h
    · exact absurd h (by simp)
    split at h
    · exact absurd h (by simp)
    rw [Prod.mk.injEq] at h
    obtain ⟨h1, h2⟩ := h
    injection h1 with e1 e2 e3
    subst e3
    subst h2
    rw [hprev, hsf]
    constructor
    · cases outcome <;> simp [streakUpdateSpec]
    · intro t ht hcid huid
      rw [applyAchievements_sessions] at ht
      dsimp only at ht
      rw [getOrCreateSettings_sessions] at ht
      rcases List.mem_map.mp ht with ⟨t₀, ht₀, rfl⟩
      by_cases he : t₀.id = s.id
      · simp only [he, if_pos rfl] at *
        cases outcome <;> simp [streakUpdateSpec]
      · rw [if_neg he] at hcid huid ⊢
        have hsmem := findSession_mem _ _ _ _ hsf
        have hsprops := findSession_props _ _ _ _ hsf
        have := hU t₀ ht₀ s hsmem (hcid.trans hsprops.1.symm) (huid.trans hsprops.2.symm)
        exact absurd (congrArg Session.id this) he

def exSnapC1 : SessionSnapshot :=
  { totalFlips := 4
    totalHeads := 2
    totalTails := 2
    currentStreak := 1
    bestHeadsStreak := 1
    bestTailsStreak := 2
    dailyFailsUsed := 2 }

def exDbC1 : Db := (recordFlip exDb 7 100000 .heads).2

theorem flip_streak_update_witness :
    exSnapC1.currentStreak = streakUpdateSpec (prevStreak exDb 7 100000) CoinResult.heads ∧
    ∀ t ∈ exDbC1.sessions, t.competitionId = 1 → t.userId = 7 →
      t.currentStreak = streakUpdateSpec (prevStreak exDb 7 100000) CoinResult.heads :=
  flip_streak_update exDb 7 100000 .heads .heads 1 exSnapC1 exDbC1 exComp
    (by decide) (by decide) (by decide)

/-! ## C2: rejected flips do not mutate state -/

/-- C2: whenever a flip request is rejected — for the rate limit
(`tooFast`) or for the daily fail limit (`dailyLimitReached`) — the
sessions table, the flips table, the competitions table and the winners
table of the resulting state all equal the original ones: in particular
the session's `totalFlips`, `currentStreak`, `dailyFailsUsed` and
`lastFlipAt` are unchanged and no `Flip` record is inserted. -/
theorem flip_rejection_frame (db : Db) (userId : Nat) (now : Int) (outcome : CoinResult)
    (db' : Db) (c : Competition) (s : Session)
    (hc : findActiveCompetition db.competitions now = some c)
    (hs : findSession db.sessions c.id userId = some s)
    (h : recordFlip db userId now outcome = (.tooFast, db') ∨
         recordFlip db userId now outcome = (.dailyLimitReached, db')) :
    db'.sessions = db.sessions ∧ db'.flips = db.flips ∧
    db'.competitions = db.competitions ∧ db'.winners = db.winners := by
  have hsf0 : findSession (getOrCreateSettings db).2.sessions c.id userId = some s := by
    rw [getOrCreateSettings_sessions]; exact hs
  rcases h with h | h
  · simp only [recordFlip] at h
    rw [getOrCreateSettings_competitions, hc] at h
    dsimp only at h
    rw [getOrCreateSession_found _ _ _ _ hsf0] at h
    dsimp only at h
    split at h
    · rw [Prod.mk.injEq] at h
      rw [← h.2]
      exact ⟨getOrCreateSettings_sessions db, getOrCreateSettings_flips db,
        getOrCreateSettings_competitions db, getOrCreateSettings_winners db⟩
    split at h
    · exact absurd h (by simp)
    · exact absurd h (by simp)
  · simp only [recordFlip] at h
    rw [getOrCreateSettings_competitions, hc] at h
    dsimp only at h
    rw [getOrCreateSession_found _ _ _ _ hsf0] at h
    dsimp only at h
    split at h
    · exact absurd h (by simp)
    split at h
    · rw [Prod.mk.injEq] at h
      rw [← h.2]
      exact ⟨getOrCreateSettings_sessions db, getOrCreateSettings_flips db,
        getOrCreateSettings_competitions db, getOrCreateSettings_winners db⟩
    · exact absurd h (by simp)

theorem flip_rejection_frame_witness :
    (recordFlip exDb 7 150 .heads).2.sessions = exDb.sessions ∧
    (recordFlip exDb 7 150 .heads).2.flips = exDb.flips ∧
    (recordFlip exDb 7 150 .heads).2.competitions = exDb.competitions ∧
    (recordFlip exDb 7 150 .heads).2.winners = exDb.winners :=
  flip_rejection_frame exDb 7 150 .heads (recordFlip exDb 7 150 .heads).2 exComp exSession
    (by decide) (by decide) (Or.inl (by decide))

/-! ## C10: a first flip with `dailyFailLimit = 0` and outcome tails -/

theorem getOrCreateSettings_some (db : Db) (st : Settings) (h : db.settings = some st) :
    getOrCreateSettings db = (st, db) := by
  unfold getOrCreateSettings; rw [h]

/-- The session row left behind by an accepted first flip whose outcome is
tails. -/
def firstTailsSession (sid competitionId userId : Nat) (now : Int) : Session :=
  { id := sid
    competitionId := competitionId
    userId := userId
    totalFlips := 1
    totalHeads := 0
    totalTails := 1
    currentStreak := -1
    bestHeadsStreak := 0
    bestTailsStreak := 1
    dailyFailsUsed := 1
    lastFlipAt := some now }

def exDbC10 : Db :=
  { exDb with
      settings := some { exSettings with dailyFailLimit := 0 }
      sessions := [] }

/-- C10 counterexample: with `dailyFailLimit = 0`, an outcome of tails and
no existing session, the flip is NOT rejected at the daily-fail gate — the
code evaluates `dailyFailLimit || 3`, so a stored limit of 0 is replaced
by 3, and the fresh session's `dailyFailsUsed = 0` is below it.  The
request succeeds, contradicting the claim's premise that it is rejected. -/
theorem flip_fresh_session_counterexample :
    (recordFlip exDbC10 7 100 .tails).1 ≠ FlipOutcome.dailyLimitReached ∧
    (recordFlip exDbC10 7 100 .tails).1.isSuccess = true := by
  constructor
  · decide
  · decide

/-- C10 amended: for a user with no session and `dailyFailLimit = 0`, a
tails flip is ACCEPTED (the code reads the limit as `dailyFailLimit || 3`,
so 0 falls back to 3); session creation does precede the rate-limit and
daily-fail checks, and the newly created session — already updated with the
tails flip — persists in the store, with the competition's `totalPlayers`
(and `totalFlips`) incremented by 1. -/
theorem flip_fresh_session_creation (db : Db) (userId : Nat) (now : Int)
    (st : Settings) (c : Competition)
    (hset : db.settings = some st)
    (hd : st.dailyFailLimit = 0)
    (hc : findActiveCompetition db.competitions now = some c)
    (hsf : findSession db.sessions c.id userId = none) :
    ((recordFlip db userId now .tails).1.isSuccess = true) ∧
    firstTailsSession db.nextSessionId c.id userId now ∈
      (recordFlip db userId now .tails).2.sessions ∧
    (recordFlip db userId now .tails).2.competitions =
      db.competitions.map (fun cc =>
        if cc.id = c.id then
          { cc with totalPlayers := cc.totalPlayers + 1, totalFlips := cc.totalFlips + 1 }
        else cc) := by
  have e1 : getOrCreateSettings db = (st, db) := getOrCreateSettings_some db st hset
  simp only [recordFlip, e1]
  rw [hc]
  dsimp only
  rw [getOrCreateSession_none _ _ _ hsf]
  dsimp only
  have hrate : flipRateLimited st (freshSession db.nextSessionId c.id userId) now = false := by
    simp [flipRateLimited, freshSession]
  rw [hrate]
  simp only [Bool.false_eq_true, if_false]
  rw [if_neg (by simp [jsOr, hd, freshSession])]
  refine ⟨rfl, ?_, ?_⟩
  · rw [applyAchievements_sessions]
    dsimp only
    refine List.mem_map.mpr ⟨freshSession db.nextSessionId c.id userId,
      List.mem_append_right _ (List.mem_singleton.mpr rfl), ?_⟩
    simp [freshSession, firstTailsSession, intAbs]
  · rw [applyAchievements_competitions]
    dsimp only
    rw [List.map_map]
    apply List.map_congr_left
    intro cc _
    by_cases he : cc.id = c.id <;> simp [he, Function.comp]

theorem flip_fresh_session_creation_witness :
    ((recordFlip exDbC10 7 100 .tails).1.isSuccess = true) ∧
    firstTailsSession 2 1 7 100 ∈ (recordFlip exDbC10 7 100 .tails).2.sessions ∧
    (recordFlip exDbC10 7 100 .tails).2.competitions =
      exDbC10.competitions.map (fun cc =>
        if cc.id = 1 then
          { cc with totalPlayers := cc.totalPlayers + 1, totalFlips := cc.totalFlips + 1 }
        else cc) :=
  flip_fresh_session_creation exDbC10 7 100 { exSettings with dailyFailLimit := 0 } exComp
    rfl rfl (by decide) (by decide)

/-! ## C3: what get-or-create actually creates -/

theorem findNewestActive_foldl_mem (l : List Competition) (acc : Option Competition) :
    l.foldl
      (fun best c =>
        match best with
        | none => some c
        | some b => if b.id < c.id then some c else some b)
      acc = acc ∨
    ∃ b ∈ l,
      l.foldl
        (fun best c =>
          match best with
          | none => some c
          | some b => if b.id < c.id then some c else some b)
        acc = some b := by
  induction l generalizing acc with
  | nil => exact Or.inl rfl
  | cons x xs ih =>
    rw [List.foldl_cons]
    rcases ih (match acc with
      | none => some x
      | some b => if b.id < x.id then some x else some b) with heq | ⟨b, hb, heq⟩
    · cases acc with
      | none => exact Or.inr ⟨x, List.mem_cons_self _ _, heq⟩
      | some a =>
        by_cases hlt : a.id < x.id
        · refine Or.inr ⟨x, List.mem_cons_self _ _, ?_⟩
          rw [heq]
          simp [hlt]
        · refine Or.inl ?_
          rw [heq]
          simp [hlt]
    · exact Or.inr ⟨b, List.mem_cons_of_mem _ hb, heq⟩

theorem findNewestActive_append (l : List Competition) (c : Competition)
    (hc : c.isActive = true) (hmax : ∀ x ∈ l, x.id < c.id) :
    findNewestActive (l ++ [c]) = some c := by
  unfold findNewestActive
  rw [List.filter_append, List.foldl_append]
  have hfc : List.filter (fun cc => cc.isActive) [c] = [c] := by
    simp [List.filter, hc]
  rw [hfc, List.foldl_cons, List.foldl_nil]
  rcases findNewestActive_foldl_mem (l.filter fun cc => cc.isActive) none with heq | ⟨b, hb, heq⟩
  · rw [heq]
  · rw [heq]
    have hbl : b ∈ l := (List.mem_filter.mp hb).1
    simp [hmax b hbl]

def exPrize : PresetPrize :=
  { id := 1
    description := 9
    imageUrl := some 4
    isDefault := true
    isActive := true
    requiresAddress := true }

def exDbC3 : Db :=
  { settings := some { exSettings with competitionDurationHours := 48 }
    competitions := []
    sessions := []
    flips := []
    achievements := []
    winners := []
    prizes := [exPrize]
    nextCompetitionId := 1
    nextSessionId := 1
    nextFlipId := 1 }

/-- C3 counterexample: with `competitionDurationHours = 48` in the settings
and an active default prize in the catalog, the competition created when
none is active ends 24 hours (86400000 ms) after now — not 48 hours — and
carries no prize fields at all. -/
theorem getCompetition_counterexample :
    (getCompetition exDbC3 0).1.map Competition.endTime = some 86400000 ∧
    (getCompetition exDbC3 0).1.map Competition.endTime ≠ some (0 + 48 * hourMs) ∧
    (getCompetition exDbC3 0).1.map Competition.prizeText = some none ∧
    (getCompetition exDbC3 0).1.map Competition.prizeImageUrl = some none ∧
    (getCompetition exDbC3 0).1.map Competition.requiresAddress = some false ∧
    defaultPrizeLookup exDbC3.prizes = some exPrize := by
  exact ⟨by decide, by decide, by decide, by decide, by decide, by decide⟩

/-- C3 amended: when `getCompetition` finds no competition that is active
and covers the current time, it creates and returns one with
`endTime = now + 24 hours` — the duration is hardcoded, the configured
`competitionDurationHours` is ignored — and with no prize attached
(`prizeText`/`prizeImageUrl` null, `requiresAddress` false) even when an
active default prize exists; the catalog's default prize is copied only in
the branch that replaces an expired-but-still-active competition. -/
theorem getCompetition_creates_hardcoded (db : Db) (now : Int)
    (hnone : findActiveCompetition db.competitions now = none)
    (hwf : ∀ x ∈ db.competitions, x.id < db.nextCompetitionId) :
    getCompetition db now =
      (some (newCompetitionRow db.nextCompetitionId now none none false),
       insertCompetition db (newCompetitionRow db.nextCompetitionId now none none false)) := by
  unfold getCompetition
  rw [hnone]
  dsimp only
  have hnew : findNewestActive
      (db.competitions ++ [newCompetitionRow db.nextCompetitionId now none none false]) =
      some (newCompetitionRow db.nextCompetitionId now none none false) :=
    findNewestActive_append _ _ rfl hwf
  have hnew2 : findNewestActive
      (insertCompetition db (newCompetitionRow db.nextCompetitionId now none none false)).competitions =
      some (newCompetitionRow db.nextCompetitionId now none none false) := hnew
  rw [hnew2]
  dsimp only
  rw [if_neg (by simp only [newCompetitionRow, hourMs]; omega)]

theorem getCompetition_creates_hardcoded_witness :
    getCompetition exDbC3 0 =
      (some (newCompetitionRow 1 0 none none false),
       insertCompetition exDbC3 (newCompetitionRow 1 0 none none false)) :=
  getCompetition_creates_hardcoded exDbC3 0 (by decide) (by decide)

/-! ## C4: settings update validation -/

def exUpdC4 : SettingsUpdate :=
  { minStreakForLeaderboard := some 0
    competitionDurationHours := none
    maxFlipsPerMinute := none
    dailyFailLimit := none }

/-- C4 counterexample: a provided `minStreakForLeaderboard = 0` is outside
the claimed range (`≥ 1`) but is NOT rejected — the validation guard is
`if (updates.minStreakForLeaderboard && ... < 1)` and `0` is falsy in
JavaScript, so the guard is skipped and the zero is applied to the stored
settings. -/
theorem updateSettings_counterexample :
    (updateSettings exDb exUpdC4).1.isInvalid = false ∧
    (updateSettings exDb exUpdC4).1 =
      .ok { exSettings with minStreakForLeaderboard := 0 } ∧
    (updateSettings exDb exUpdC4).2.settings =
      some { exSettings with minStreakForLeaderboard := 0 } := by
  exact ⟨by decide, by decide, by decide⟩

/-- C4 amended: each provided field is validated independently, but the
guard for the three `≥ 1` fields only fires on a provided NEGATIVE value
(a provided 0 is falsy in JavaScript and slips through the
`updates.x && updates.x < 1` check, and is then applied);
`dailyFailLimit < 0` is rejected.  When a provided value is negative the
update is rejected with a validation error and the whole store — in
particular every settings field — is unchanged; otherwise exactly the
provided fields are applied and the others are left untouched. -/
theorem updateSettings_spec (db : Db) (u : SettingsUpdate) (s : Settings)
    (hs : db.settings = some s) :
    ((∃ v : Int, (u.minStreakForLeaderboard = some v ∨ u.competitionDurationHours = some v ∨
        u.maxFlipsPerMinute = some v ∨ u.dailyFailLimit = some v) ∧ v < 0) →
      (updateSettings db u).1.isInvalid = true ∧ (updateSettings db u).2 = db) ∧
    ((∀ v : Int, u.minStreakForLeaderboard = some v → 0 ≤ v) →
     (∀ v : Int, u.competitionDurationHours = some v → 0 ≤ v) →
     (∀ v : Int, u.maxFlipsPerMinute = some v → 0 ≤ v) →
     (∀ v : Int, u.dailyFailLimit = some v → 0 ≤ v) →
      ∃ m : Settings, (updateSettings db u).1 = .ok m ∧
        (updateSettings db u).2 = { db with settings := some m } ∧
        m.minStreakForLeaderboard = u.minStreakForLeaderboard.getD s.minStreakForLeaderboard ∧
        m.competitionDurationHours = u.competitionDurationHours.getD s.competitionDurationHours ∧
        m.maxFlipsPerMinute = u.maxFlipsPerMinute.getD s.maxFlipsPerMinute ∧
        m.dailyFailLimit = u.dailyFailLimit.getD s.dailyFailLimit) := by
  constructor
  · rintro ⟨v, hv, hneg⟩
    unfold updateSettings
    split
    · exact ⟨rfl, rfl⟩
    split
    · exact ⟨rfl, rfl⟩
    split
    · exact ⟨rfl, rfl⟩
    split
    · exact ⟨rfl, rfl⟩
    exfalso
    rename_i h1 h2 h3 h4
    rcases hv with h | h | h | h
    · exact h1 (by simp only [failsMinOneCheck, h]; simp; omega)
    · exact h2 (by simp only [failsMinOneCheck, h]; simp; omega)
    · exact h3 (by simp only [failsMinOneCheck, h]; simp; omega)
    · exact h4 (by simp only [failsNonNegCheck, h]; simp; omega)
  · intro h1 h2 h3 h4
    have f1 : failsMinOneCheck u.minStreakForLeaderboard = false := by
      cases hv : u.minStreakForLeaderboard with
      | none => rfl
      | some v =>
        have := h1 v hv
        simp only [failsMinOneCheck]
        simp
        omega
    have f2 : failsMinOneCheck u.competitionDurationHours = false := by
      cases hv : u.competitionDurationHours with
      | none => rfl
      | some v =>
        have := h2 v hv
        simp only [failsMinOneCheck]
        simp
        omega
    have f3 : failsMinOneCheck u.maxFlipsPerMinute = false := by
      cases hv : u.maxFlipsPerMinute with
      | none => rfl
      | some v =>
        have := h3 v hv
        simp only [failsMinOneCheck]
        simp
        omega
    have f4 : failsNonNegCheck u.dailyFailLimit = false := by
      cases hv : u.dailyFailLimit with
      | none => rfl
      | some v =>
        have := h4 v hv
        simp only [failsNonNegCheck]
        simp
        omega
    unfold updateSettings
    simp only [f1, f2, f3, f4, Bool.false_eq_true, if_false]
    rw [hs]
    exact ⟨_, rfl, rfl, rfl, rfl, rfl, rfl⟩

def exUpdC4b : SettingsUpdate :=
  { minStreakForLeaderboard := some 7
    competitionDurationHours := none
    maxFlipsPerMinute := none
    dailyFailLimit := some (-1) }

theorem updateSettings_spec_witness :
    ((updateSettings exDb exUpdC4b).1.isInvalid = true ∧
      (updateSettings exDb exUpdC4b).2 = exDb) ∧
    ∃ m : Settings, (updateSettings exDb exUpdC4).1 = .ok m ∧
      (updateSettings exDb exUpdC4).2 = { exDb with settings := some m } ∧
      m.minStreakForLeaderboard =
        (exUpdC4.minStreakForLeaderboard).getD exSettings.minStreakForLeaderboard ∧
      m.competitionDurationHours =
        (exUpdC4.competitionDurationHours).getD exSettings.competitionDurationHours ∧
      m.maxFlipsPerMinute = (exUpdC4.maxFlipsPerMinute).getD exSettings.maxFlipsPerMinute ∧
      m.dailyFailLimit = (exUpdC4.dailyFailLimit).getD exSettings.dailyFailLimit :=
  ⟨(updateSettings_spec exDb exUpdC4b exSettings rfl).1 ⟨-1, Or.inr (Or.inr (Or.inr rfl)),
      by decide⟩,
   (updateSettings_spec exDb exUpdC4 exSettings rfl).2
     (by intro v hv; cases hv; decide) (by intro v hv; cases hv) (by intro v hv; cases hv)
     (by intro v hv; cases hv)⟩

/-! ## C7: the single-default invariant of the prize catalog -/

def exDbC7 : Db := { exDb with prizes := [exPrize] }

/-- C7 counterexample: `setDefault` with a prize id that is not in the
catalog first clears `isDefault` everywhere and then sets it on no row at
all: the catalog (which had exactly one default) ends with ZERO defaults,
refuting "exactly one row has isDefault=true for every prize id". -/
theorem setDefault_counterexample :
    ((setDefaultPresetPrize exDbC7 2).prizes.countP fun p => p.isDefault) = 0 ∧
    ((setDefaultPresetPrize exDbC7 2).prizes.countP fun p => p.isDefault) ≠ 1 ∧
    (exDbC7.prizes.countP fun p => p.isDefault) = 1 := by
  exact ⟨by decide, by decide, by decide⟩

/-- C7 amended: after any `setDefault` call, the number of catalog rows
with `isDefault = true` equals the number of catalog rows whose id is the
requested prize id — exactly one when the id names exactly one existing
prize (in particular for any catalog whose ids are unique and contain it),
and zero when the id names none. -/
theorem setDefault_default_count (db : Db) (prizeId : Nat) :
    ((setDefaultPresetPrize db prizeId).prizes.countP fun p => p.isDefault) =
      db.prizes.countP fun p => p.id == prizeId := by
  unfold setDefaultPresetPrize
  dsimp only
  rw [List.map_map, List.countP_map]
  apply List.countP_congr
  intro p _
  by_cases hd : p.isDefault <;> by_cases hi : p.id = prizeId <;>
    simp [Function.comp, hd, hi]

/-! ## Sorting and winner-row lemmas shared by the winner-selection claims -/

theorem insertByStreakDesc_perm (s : Session) (l : List Session) :
    (insertByStreakDesc s l).Perm (s :: l) := by
  induction l with
  | nil => exact List.Perm.refl _
  | cons t ts ih =>
    unfold insertByStreakDesc
    split
    · exact List.Perm.refl _
    · exact (List.Perm.cons t ih).trans (List.Perm.swap s t ts)

theorem sessionsByBestStreakDesc_perm (l : List Session) :
    (sessionsByBestStreakDesc l).Perm l := by
  induction l with
  | nil => exact List.Perm.refl _
  | cons s ss ih =>
    exact (insertByStreakDesc_perm s (sessionsByBestStreakDesc ss)).trans (List.Perm.cons s ih)

theorem insertByStreakDesc_sorted (s : Session) (l : List Session)
    (h : l.Pairwise (fun a b => b.bestHeadsStreak ≤ a.bestHeadsStreak)) :
    (insertByStreakDesc s l).Pairwise
      (fun a b => b.bestHeadsStreak ≤ a.bestHeadsStreak) := by
  induction l with
  | nil => exact List.pairwise_singleton _ _
  | cons t ts ih =>
    rw [List.pairwise_cons] at h
    unfold insertByStreakDesc
    split
    · rename_i hle
      rw [List.pairwise_cons]
      refine ⟨?_, List.pairwise_cons.mpr h⟩
      intro b hb
      rcases List.mem_cons.mp hb with rfl | hb
      · omega
      · have := h.1 b hb
        omega
    · rename_i hgt
      rw [List.pairwise_cons]
      refine ⟨?_, ih h.2⟩
      intro b hb
      have hb2 := (insertByStreakDesc_perm s ts).mem_iff.mp hb
      rcases List.mem_cons.mp hb2 with rfl | hb2
      · omega
      · exact h.1 b hb2

theorem sessionsByBestStreakDesc_sorted (l : List Session) :
    (sessionsByBestStreakDesc l).Pairwise
      (fun a b => b.bestHeadsStreak ≤ a.bestHeadsStreak) := by
  induction l with
  | nil => exact List.Pairwise.nil
  | cons s ss ih => exact insertByStreakDesc_sorted s _ ih

theorem topPlayers_subset_eligible (sessions : List Session) (cid : Nat) (minStreak : Int)
    (n : Nat) :
    ∀ s ∈ topPlayers sessions cid minStreak n, s ∈ eligibleSessions sessions cid minStreak := by
  intro s hs
  exact (sessionsByBestStreakDesc_perm _).mem_iff.mp ((List.take_sublist n _).subset hs)

theorem eligibleSessions_mem (sessions : List Session) (cid : Nat) (minStreak : Int)
    (s : Session) (h : s ∈ eligibleSessions sessions cid minStreak) :
    s ∈ sessions ∧ s.competitionId = cid ∧ minStreak ≤ s.bestHeadsStreak := by
  have h2 := List.mem_filter.mp h
  have h3 := h2.2
  simp only [Bool.and_eq_true, beq_iff_eq, decide_eq_true_eq] at h3
  exact ⟨h2.1, h3.1, h3.2⟩

theorem topPlayers_sorted (sessions : List Session) (cid : Nat) (minStreak : Int) (n : Nat) :
    (topPlayers sessions cid minStreak n).Pairwise
      (fun a b => b.bestHeadsStreak ≤ a.bestHeadsStreak) :=
  List.Pairwise.sublist (List.take_sublist n _) (sessionsByBestStreakDesc_sorted _)

theorem topPlayers_length (sessions : List Session) (cid : Nat) (minStreak : Int) (n : Nat) :
    (topPlayers sessions cid minStreak n).length =
      min n (eligibleSessions sessions cid minStreak).length := by
  unfold topPlayers
  rw [List.length_take, (sessionsByBestStreakDesc_perm _).length_eq]

theorem winnersFromTop_length (cid a : Nat) (top : List Session) :
    (winnersFromTop cid a top).length = top.length := by
  unfold winnersFromTop
  rw [List.length_map, List.enum_length]

theorem winnersFromTop_positions (cid a : Nat) (top : List Session) :
    (winnersFromTop cid a top).map Winner.position = List.range' 1 top.length := by
  unfold winnersFromTop
  rw [List.map_map]
  have hcomp : (Winner.position ∘ fun ip : Nat × Session =>
      ({ competitionId := cid, userId := ip.2.userId, finalStreak := ip.2.bestHeadsStreak,
         position := ip.1 + 1, selectedById := a } : Winner)) =
      (fun i => 1 + i) ∘ Prod.fst := by
    funext ip
    simp [Function.comp]
    omega
  rw [hcomp, ← List.map_map, List.enum_map_fst, List.range'_eq_map_range]

theorem winnersFromTop_finalStreaks (cid a : Nat) (top : List Session) :
    (winnersFromTop cid a top).map Winner.finalStreak =
      top.map Session.bestHeadsStreak := by
  unfold winnersFromTop
  rw [List.map_map]
  have hcomp : (Winner.finalStreak ∘ fun ip : Nat × Session =>
      ({ competitionId := cid, userId := ip.2.userId, finalStreak := ip.2.bestHeadsStreak,
         position := ip.1 + 1, selectedById := a } : Winner)) =
      Session.bestHeadsStreak ∘ Prod.snd := by
    funext ip
    simp [Function.comp]
  rw [hcomp, ← List.map_map, List.enum_map_snd]

theorem winnersFromTop_userIds (cid a : Nat) (top : List Session) :
    (winnersFromTop cid a top).map Winner.userId = top.map Session.userId := by
  unfold winnersFromTop
  rw [List.map_map]
  have hcomp : (Winner.userId ∘ fun ip : Nat × Session =>
      ({ competitionId := cid, userId := ip.2.userId, finalStreak := ip.2.bestHeadsStreak,
         position := ip.1 + 1, selectedById := a } : Winner)) =
      Session.userId ∘ Prod.snd := by
    funext ip
    simp [Function.comp]
  rw [hcomp, ← List.map_map, List.enum_map_snd]

theorem winnersFromTop_mem (cid a : Nat) (top : List Session) (w : Winner)
    (h : w ∈ winnersFromTop cid a top) :
    ∃ s ∈ top, w.userId = s.userId ∧ w.finalStreak = s.bestHeadsStreak ∧
      w.competitionId = cid ∧ w.selectedById = a := by
  unfold winnersFromTop at h
  rcases List.mem_map.mp h with ⟨ip, hip, rfl⟩
  have hsnd : ip.2 ∈ top := by
    have he := List.enum_map_snd top
    rw [← he]
    exact List.mem_map.mpr ⟨ip, hip, rfl⟩
  exact ⟨ip.2, hsnd, rfl, rfl, rfl, rfl⟩

theorem winnersFromTop_head (cid a : Nat) (top : List Session) :
    (winnersFromTop cid a top).head?.map Winner.userId =
      top.head?.map Session.userId := by
  cases top with
  | nil => rfl
  | cons s rest => rfl


/-! ## C6: auto-selection of winners -/

theorem minStreakSetting_eq (db : Db) (st : Settings) (hset : db.settings = some st)
    (hmin : 1 ≤ st.minStreakForLeaderboard) :
    minStreakSetting db = st.minStreakForLeaderboard := by
  unfold minStreakSetting jsOr
  rw [hset]
  show (if st.minStreakForLeaderboard = 0 then (5 : Int)
        else st.minStreakForLeaderboard) = st.minStreakForLeaderboard
  rw [if_neg (by omega)]

/-- C6: `autoSelectWinners` fails without touching the store when the
competition is still active, when winners were already selected, or when no
session of the competition reaches the leaderboard threshold; otherwise it
records the top `topCount` eligible sessions ordered by best-heads-streak
descending, with positions `1..N`, `finalStreak` copied from the session,
marks the competition's `winnersSelected` and sets `winnerUserId` to the
position-1 winner's user (settings are assumed present with the spec's
`minStreakForLeaderboard ≥ 1` data-model invariant).  "Top" is captured
exactly: the selected sessions together with a remainder `rest` form a
permutation of the eligible sessions — so no eligible row is selected more
often than it occurs — and every selected winner's `finalStreak` is at
least the streak of every non-selected eligible session. -/
theorem autoSelect_spec (db : Db) (competitionId topCount adminId : Nat)
    (comp : Competition) (st : Settings)
    (hfind : findCompetitionById db.competitions competitionId = some comp)
    (hset : db.settings = some st) (hmin : 1 ≤ st.minStreakForLeaderboard) :
    (comp.isActive = true →
      autoSelectWinners db competitionId topCount adminId = (.stillActive, db)) ∧
    (comp.isActive = false → comp.winnersSelected = true →
      autoSelectWinners db competitionId topCount adminId = (.alreadySelected, db)) ∧
    (comp.isActive = false → comp.winnersSelected = false →
      (∀ s ∈ db.sessions, s.competitionId = competitionId →
        s.bestHeadsStreak < st.minStreakForLeaderboard) →
      autoSelectWinners db competitionId topCount adminId = (.noEligiblePlayers, db)) ∧
    (∀ ws db', autoSelectWinners db competitionId topCount adminId = (.selected ws, db') →
      ws.map Winner.position = List.range' 1 ws.length ∧
      ws.length = min topCount
        (eligibleSessions db.sessions competitionId st.minStreakForLeaderboard).length ∧
      (∀ w ∈ ws, ∃ s ∈ db.sessions, s.competitionId = competitionId ∧
        st.minStreakForLeaderboard ≤ s.bestHeadsStreak ∧
        w.userId = s.userId ∧ w.finalStreak = s.bestHeadsStreak) ∧
      (ws.map Winner.finalStreak).Pairwise (fun a b => b ≤ a) ∧
      (∃ selected rest : List Session,
        ws = winnersFromTop competitionId adminId selected ∧
        (selected ++ rest).Perm
          (eligibleSessions db.sessions competitionId st.minStreakForLeaderboard) ∧
        ∀ w ∈ ws, ∀ s ∈ rest, s.bestHeadsStreak ≤ w.finalStreak) ∧
      db'.winners = db.winners ++ ws ∧
      (∀ c ∈ db'.competitions, c.id = competitionId →
        c.winnersSelected = true ∧ c.winnerUserId = ws.head?.map Winner.userId) ∧
      db'.sessions = db.sessions ∧ db'.flips = db.flips) := by
  have hms : minStreakSetting db = st.minStreakForLeaderboard :=
    minStreakSetting_eq db st hset hmin
  refine ⟨?_, ?_, ?_, ?_⟩
  · intro ha
    unfold autoSelectWinners
    rw [hfind]
    dsimp only
    rw [if_pos ha]
  · intro ha hw
    unfold autoSelectWinners
    rw [hfind]
    dsimp only
    rw [if_neg (by rw [ha]; exact Bool.false_ne_true), if_pos hw]
  · intro ha hw hnone
    unfold autoSelectWinners
    rw [hfind]
    dsimp only
    rw [if_neg (by rw [ha]; exact Bool.false_ne_true),
        if_neg (by rw [hw]; exact Bool.false_ne_true)]
    have helig : eligibleSessions db.sessions competitionId (minStreakSetting db) = [] := by
      rw [hms]
      apply List.filter_eq_nil_iff.mpr
      intro s hs
      simp only [Bool.and_eq_true, beq_iff_eq, decide_eq_true_eq, not_and]
      intro hcid
      have := hnone s hs hcid
      omega
    have htop : topPlayers db.sessions competitionId (minStreakSetting db) topCount = [] := by
      unfold topPlayers
      rw [helig]
      show List.take topCount [] = []
      exact List.take_nil
    rw [htop]
    rfl
  · intro ws db' hsel
    unfold autoSelectWinners at hsel
    rw [hfind] at hsel
    dsimp only at hsel
    split at hsel
    · exact absurd hsel (by simp)
    split at hsel
    · exact absurd hsel (by simp)
    split at hsel
    · exact absurd hsel (by simp)
    rename_i hnact hnsel hnempty
    rw [Prod.mk.injEq] at hsel
    obtain ⟨h1, h2⟩ := hsel
    injection h1 with h1
    subst h1
    subst h2
    refine ⟨?_, ?_, ?_, ?_, ?_, rfl, ?_, rfl, rfl⟩
    · rw [winnersFromTop_positions, winnersFromTop_length]
    · rw [winnersFromTop_length, topPlayers_length, hms]
    · intro w hw
      rcases winnersFromTop_mem _ _ _ _ hw with ⟨s, hs, hu, hf, _, _⟩
      have he := topPlayers_subset_eligible _ _ _ _ s hs
      rw [hms] at he
      rcases eligibleSessions_mem _ _ _ _ he with ⟨hmem, hcid, hstreak⟩
      exact ⟨s, hmem, hcid, hstreak, hu, hf⟩
    · rw [winnersFromTop_finalStreaks]
      rw [List.pairwise_map]
      exact topPlayers_sorted _ _ _ _
    · refine ⟨topPlayers db.sessions competitionId (minStreakSetting db) topCount,
        (sessionsByBestStreakDesc
          (eligibleSessions db.sessions competitionId (minStreakSetting db))).drop topCount,
        rfl, ?_, ?_⟩
      · rw [← hms]
        unfold topPlayers
        rw [List.take_append_drop]
        exact sessionsByBestStreakDesc_perm _
      · intro w hw s hs
        rcases winnersFromTop_mem _ _ _ _ hw with ⟨s₀, hs₀, _, hf, _, _⟩
        have hsorted := sessionsByBestStreakDesc_sorted
          (eligibleSessions db.sessions competitionId (minStreakSetting db))
        rw [← List.take_append_drop topCount (sessionsByBestStreakDesc
          (eligibleSessions db.sessions competitionId (minStreakSetting db)))] at hsorted
        have h3 := (List.pairwise_append.mp hsorted).2.2
        rw [hf]
        exact h3 s₀ hs₀ s hs
    · intro c hc hcid
      rcases List.mem_map.mp hc with ⟨c₀, hc₀, rfl⟩
      by_cases he : c₀.id = competitionId
      · rw [if_pos he]
        exact ⟨rfl, (winnersFromTop_head _ _ _).symm⟩
      · rw [if_neg he] at hcid ⊢
        exact absurd hcid he


def mkSess (idv uid : Nat) (best : Int) : Session :=
  { id := idv, competitionId := 1, userId := uid, totalFlips := 20, totalHeads := 10,
    totalTails := 10, currentStreak := 0, bestHeadsStreak := best, bestTailsStreak := 0,
    dailyFailsUsed := 0, lastFlipAt := some 5 }

def exDbC6 : Db :=
  { settings := some exSettings
    competitions := [{ exComp with isActive := false }]
    sessions := [mkSess 1 7 12, mkSess 2 8 9, mkSess 3 9 9, mkSess 4 10 5, mkSess 5 11 2]
    flips := []
    achievements := []
    winners := []
    prizes := []
    nextCompetitionId := 2
    nextSessionId := 6
    nextFlipId := 1 }

def exWinnersC6 : List Winner :=
  [{ competitionId := 1, userId := 7, finalStreak := 12, position := 1, selectedById := 99 },
   { competitionId := 1, userId := 8, finalStreak := 9, position := 2, selectedById := 99 },
   { competitionId := 1, userId := 9, finalStreak := 9, position := 3, selectedById := 99 }]

def exDbC6r : Db := (autoSelectWinners exDbC6 1 3 99).2

theorem autoSelect_spec_witness :
    exWinnersC6.map Winner.position = List.range' 1 exWinnersC6.length ∧
    exWinnersC6.length =
      min 3 (eligibleSessions exDbC6.sessions 1 exSettings.minStreakForLeaderboard).length ∧
    (∀ w ∈ exWinnersC6, ∃ s ∈ exDbC6.sessions, s.competitionId = 1 ∧
      exSettings.minStreakForLeaderboard ≤ s.bestHeadsStreak ∧
      w.userId = s.userId ∧ w.finalStreak = s.bestHeadsStreak) ∧
    (exWinnersC6.map Winner.finalStreak).Pairwise (fun a b => b ≤ a) ∧
    (∃ selected rest : List Session,
      exWinnersC6 = winnersFromTop 1 99 selected ∧
      (selected ++ rest).Perm
        (eligibleSessions exDbC6.sessions 1 exSettings.minStreakForLeaderboard) ∧
      ∀ w ∈ exWinnersC6, ∀ s ∈ rest, s.bestHeadsStreak ≤ w.finalStreak) ∧
    exDbC6r.winners = exDbC6.winners ++ exWinnersC6 ∧
    (∀ c ∈ exDbC6r.competitions, c.id = 1 →
      c.winnersSelected = true ∧ c.winnerUserId = exWinnersC6.head?.map Winner.userId) ∧
    exDbC6r.sessions = exDbC6.sessions ∧ exDbC6r.flips = exDbC6.flips :=
  (autoSelect_spec exDbC6 1 3 99 { exComp with isActive := false } exSettings
    (by decide) rfl (by decide)).2.2.2 exWinnersC6 exDbC6r (by decide)

/-! ## C5: winner positions are contiguous 1..N -/

theorem winnersFromTop_filter_self (cid a : Nat) (top : List Session) :
    (winnersFromTop cid a top).filter (fun w => w.competitionId == cid) =
      winnersFromTop cid a top := by
  apply List.filter_eq_self.mpr
  intro w hw
  rcases winnersFromTop_mem _ _ _ _ hw with ⟨s, _, _, _, hcid, _⟩
  simp [hcid]

theorem filter_of_filter_not (l : List Winner) (cid : Nat) :
    (l.filter fun w => !(w.competitionId == cid)).filter
      (fun w => w.competitionId == cid) = [] := by
  apply List.filter_eq_nil_iff.mpr
  intro w hw
  have := (List.mem_filter.mp hw).2
  simp at this ⊢
  exact this

/-- C5: after a successful manual winner selection the winner rows of the
competition carry exactly the positions `1..N` in order (the previous rows
having been deleted first); after a successful auto-selection on a
competition that had no winner rows (which is the reachable pre-state,
since auto-selection requires `winnersSelected = false`), the same holds.
`N` is the number of winners recorded. -/
theorem winner_positions_contiguous (db : Db) (competitionId : Nat)
    (inputs : List WinnerInput) (adminId topCount : Nat) :
    (∀ ws db', selectCompetitionWinners db competitionId inputs adminId = (.selected ws, db') →
      (db'.winners.filter fun w => w.competitionId == competitionId).map Winner.position =
        List.range' 1 ws.length) ∧
    (∀ ws db', autoSelectWinners db competitionId topCount adminId = (.selected ws, db') →
      (db.winners.filter fun w => w.competitionId == competitionId) = [] →
      (db'.winners.filter fun w => w.competitionId == competitionId).map Winner.position =
        List.range' 1 ws.length) := by
  constructor
  · intro ws db' hsel
    unfold selectCompetitionWinners at hsel
    split at hsel
    · exact absurd hsel (by simp)
    split at hsel
    · exact absurd hsel (by simp)
    split at hsel
    · exact absurd hsel (by simp)
    rename_i competition hfind
    split at hsel
    · exact absurd hsel (by simp)
    dsimp only at hsel
    rw [Prod.mk.injEq] at hsel
    obtain ⟨h1, h2⟩ := hsel
    injection h1 with h1
    subst h1
    subst h2
    dsimp only
    rw [List.filter_append, filter_of_filter_not]
    rw [List.nil_append]
    have hself : (List.filter (fun w => w.competitionId == competitionId)
        (inputs.enum.map fun iw =>
          ({ competitionId := competitionId, userId := iw.2.userId,
             finalStreak := jsOrOpt iw.2.finalStreak
               (jsOrOpt ((findSession
                 { db with winners := db.winners.filter fun w => !(w.competitionId == competitionId) }.sessions
                 competitionId iw.2.userId).map (·.bestHeadsStreak)) 0),
             position := iw.1 + 1, selectedById := adminId } : Winner))) =
        inputs.enum.map fun iw =>
          ({ competitionId := competitionId, userId := iw.2.userId,
             finalStreak := jsOrOpt iw.2.finalStreak
               (jsOrOpt ((findSession
                 { db with winners := db.winners.filter fun w => !(w.competitionId == competitionId) }.sessions
                 competitionId iw.2.userId).map (·.bestHeadsStreak)) 0),
             position := iw.1 + 1, selectedById := adminId } : Winner) := by
      apply List.filter_eq_self.mpr
      intro w hw
      rcases List.mem_map.mp hw with ⟨ip, _, rfl⟩
      simp
    rw [hself]
    rw [List.map_map, List.length_map, List.enum_length]
    have hcomp : ((Winner.position ∘ fun iw : Nat × WinnerInput =>
        ({ competitionId := competitionId, userId := iw.2.userId,
           finalStreak := jsOrOpt iw.2.finalStreak
             (jsOrOpt ((findSession
               { db with winners := db.winners.filter fun w => !(w.competitionId == competitionId) }.sessions
               competitionId iw.2.userId).map (·.bestHeadsStreak)) 0),
           position := iw.1 + 1, selectedById := adminId } : Winner))) =
        (fun i => 1 + i) ∘ Prod.fst := by
      funext ip
      simp [Function.comp]
      omega
    rw [hcomp, ← List.map_map, List.enum_map_fst, List.range'_eq_map_range]
  · intro ws db' hsel hempty
    unfold autoSelectWinners at hsel
    split at hsel
    · exact absurd hsel (by simp)
    split at hsel
    · exact absurd hsel (by simp)
    split at hsel
    · exact absurd hsel (by simp)
    dsimp only at hsel
    split at hsel
    · exact absurd hsel (by simp)
    rw [Prod.mk.injEq] at hsel
    obtain ⟨h1, h2⟩ := hsel
    injection h1 with h1
    subst h1
    subst h2
    dsimp only
    rw [List.filter_append, hempty, List.nil_append, winnersFromTop_filter_self,
        winnersFromTop_positions, winnersFromTop_length]


def exInputsC5 : List WinnerInput := [⟨8, none⟩, ⟨7, some 0⟩]

def exWsC5 : List Winner :=
  [{ competitionId := 1, userId := 8, finalStreak := 9, position := 1, selectedById := 99 },
   { competitionId := 1, userId := 7, finalStreak := 12, position := 2, selectedById := 99 }]

def exDbC5r : Db := (selectCompetitionWinners exDbC6 1 exInputsC5 99).2

theorem winner_positions_contiguous_witness :
    (exDbC5r.winners.filter fun w => w.competitionId == 1).map Winner.position =
      List.range' 1 exWsC5.length :=
  (winner_positions_contiguous exDbC6 1 exInputsC5 99 3).1 exWsC5 exDbC5r (by decide)

/-! ## C8: the expiry sweep is idempotent -/


theorem processOneExpired_sessions (m : Int) (a : Nat) (db : Db) (e : Competition) :
    (processOneExpired m a db e).sessions = db.sessions := by
  unfold processOneExpired
  dsimp only
  split
  · rfl
  split
  · rfl
  · rfl

theorem processOneExpired_settings (m : Int) (a : Nat) (db : Db) (e : Competition) :
    (processOneExpired m a db e).settings = db.settings := by
  unfold processOneExpired
  dsimp only
  split
  · rfl
  split
  · rfl
  · rfl

theorem processOneExpired_mem (m : Int) (a : Nat) (db : Db) (e : Competition)
    (c' : Competition) (hc' : c' ∈ (processOneExpired m a db e).competitions) :
    (∃ c ∈ db.competitions, c.id ≠ e.id ∧ c' = c) ∨ c'.isActive = false := by
  unfold processOneExpired at hc'
  dsimp only at hc'
  split at hc'
  · rcases List.mem_map.mp hc' with ⟨c, hc, rfl⟩
    by_cases he : c.id = e.id
    · rw [if_pos he]
      exact Or.inr rfl
    · rw [if_neg he]
      exact Or.inl ⟨c, hc, he, rfl⟩
  split at hc'
  · rcases List.mem_map.mp hc' with ⟨c, hc, rfl⟩
    by_cases he : c.id = e.id
    · rw [if_pos he]
      exact Or.inr rfl
    · rw [if_neg he]
      exact Or.inl ⟨c, hc, he, rfl⟩
  · rcases List.mem_map.mp hc' with ⟨c₁, hc₁, rfl⟩
    rcases List.mem_map.mp hc₁ with ⟨c, hc, rfl⟩
    by_cases he : c.id = e.id
    · rw [if_pos he, if_pos he]
      exact Or.inr rfl
    · rw [if_neg he, if_neg he]
      exact Or.inl ⟨c, hc, he, rfl⟩

theorem processOneExpired_proj (m : Int) (a : Nat) (db : Db) (e : Competition) :
    ((processOneExpired m a db e).competitions.map fun c => (c.id, c.endTime)) =
      db.competitions.map fun c => (c.id, c.endTime) := by
  unfold processOneExpired
  dsimp only
  split
  · rw [List.map_map]
    apply List.map_congr_left
    intro c _
    by_cases he : c.id = e.id <;> simp [he, Function.comp]
  split
  · rw [List.map_map]
    apply List.map_congr_left
    intro c _
    by_cases he : c.id = e.id <;> simp [he, Function.comp]
  · rw [List.map_map, List.map_map]
    apply List.map_congr_left
    intro c _
    by_cases he : c.id = e.id <;> simp [he, Function.comp]



theorem processExpired_fold_sessions (m : Int) (a : Nat) :
    ∀ (E : List Competition) (db : Db),
      (E.foldl (processOneExpired m a) db).sessions = db.sessions := by
  intro E
  induction E with
  | nil => intro db; rfl
  | cons e E' ih =>
    intro db
    rw [List.foldl_cons, ih, processOneExpired_sessions]

theorem processExpired_fold_proj (m : Int) (a : Nat) :
    ∀ (E : List Competition) (db : Db),
      ((E.foldl (processOneExpired m a) db).competitions.map fun c => (c.id, c.endTime)) =
        db.competitions.map fun c => (c.id, c.endTime) := by
  intro E
  induction E with
  | nil => intro db; rfl
  | cons e E' ih =>
    intro db
    rw [List.foldl_cons, ih, processOneExpired_proj]

theorem processExpired_fold_inactive (now : Int) (m : Int) (a : Nat) :
    ∀ (E : List Competition) (db : Db),
      (∀ c ∈ db.competitions, c.isActive = true → c.endTime ≤ now → ∃ e ∈ E, e.id = c.id) →
      ∀ c' ∈ (E.foldl (processOneExpired m a) db).competitions,
        c'.isActive = true → ¬(c'.endTime ≤ now) := by
  intro E
  induction E with
  | nil =>
    intro db h c' hc' hact hend
    rcases h c' hc' hact hend with ⟨e, he, _⟩
    exact absurd he (List.not_mem_nil e)
  | cons e E' ih =>
    intro db h c' hc' hact hend
    rw [List.foldl_cons] at hc'
    refine ih (processOneExpired m a db e) ?_ c' hc' hact hend
    intro c₁ hc₁ hact₁ hend₁
    rcases processOneExpired_mem m a db e c₁ hc₁ with ⟨c, hcmem, hne, heq⟩ | hfalse
    · rw [heq] at hact₁ hend₁
      rcases h c hcmem hact₁ hend₁ with ⟨e₀, he₀, heid⟩
      rcases List.mem_cons.mp he₀ with rfl | he₀
      · exact absurd heid.symm hne
      · refine ⟨e₀, he₀, ?_⟩
        rw [heq]
        exact heid
    · rw [hfalse] at hact₁
      cases hact₁

theorem processOneExpired_selected_preserved (m : Int) (a : Nat) (db : Db) (e : Competition)
    (k : Nat) (h : ∀ c ∈ db.competitions, c.id = k → c.winnersSelected = true) :
    ∀ c' ∈ (processOneExpired m a db e).competitions, c'.id = k →
      c'.winnersSelected = true := by
  intro c' hc' hk
  unfold processOneExpired at hc'
  dsimp only at hc'
  split at hc'
  · rcases List.mem_map.mp hc' with ⟨c, hc, rfl⟩
    by_cases he : c.id = e.id
    · rw [if_pos he] at hk ⊢
      exact h c hc hk
    · rw [if_neg he] at hk ⊢
      exact h c hc hk
  split at hc'
  · rcases List.mem_map.mp hc' with ⟨c, hc, rfl⟩
    by_cases he : c.id = e.id
    · rw [if_pos he] at hk ⊢
      exact h c hc hk
    · rw [if_neg he] at hk ⊢
      exact h c hc hk
  · rcases List.mem_map.mp hc' with ⟨c₁, hc₁, rfl⟩
    rcases List.mem_map.mp hc₁ with ⟨c, hc, rfl⟩
    by_cases he : c.id = e.id
    · simp [he]
    · simp only [he, if_false] at hk ⊢
      exact h c hc hk

theorem processOneExpired_selects (m : Int) (a : Nat) (db : Db) (e : Competition)
    (hsel : e.winnersSelected = false)
    (htop : topPlayers db.sessions e.id m 3 ≠ []) :
    ∀ c' ∈ (processOneExpired m a db e).competitions, c'.id = e.id →
      c'.winnersSelected = true := by
  intro c' hc' hk
  unfold processOneExpired at hc'
  dsimp only at hc'
  split at hc'
  · rename_i hws
    rw [hsel] at hws
    cases hws
  split at hc'
  · rename_i hempty
    exact absurd (List.isEmpty_iff.mp hempty) htop
  · rcases List.mem_map.mp hc' with ⟨c₁, hc₁, rfl⟩
    rcases List.mem_map.mp hc₁ with ⟨c, hc, rfl⟩
    by_cases he : c.id = e.id
    · simp [he]
    · simp only [he, if_false] at hk



theorem processExpired_fold_selected_preserved (m : Int) (a : Nat) (k : Nat) :
    ∀ (E : List Competition) (db : Db),
      (∀ c ∈ db.competitions, c.id = k → c.winnersSelected = true) →
      ∀ c' ∈ (E.foldl (processOneExpired m a) db).competitions, c'.id = k →
        c'.winnersSelected = true := by
  intro E
  induction E with
  | nil => intro db h; exact h
  | cons e E' ih =>
    intro db h
    rw [List.foldl_cons]
    exact ih _ (processOneExpired_selected_preserved m a db e k h)

theorem processExpired_fold_selects (m : Int) (a : Nat) :
    ∀ (E : List Competition) (db : Db) (e : Competition), e ∈ E →
      e.winnersSelected = false →
      topPlayers db.sessions e.id m 3 ≠ [] →
      ∀ c' ∈ (E.foldl (processOneExpired m a) db).competitions, c'.id = e.id →
        c'.winnersSelected = true := by
  intro E
  induction E with
  | nil => intro db e he _ _; exact absurd he (List.not_mem_nil e)
  | cons e₀ E' ih =>
    intro db e he hsel htop
    rw [List.foldl_cons]
    rcases List.mem_cons.mp he with rfl | he'
    · exact processExpired_fold_selected_preserved m a e.id E' _
        (processOneExpired_selects m a db e hsel htop)
    · refine ih _ e he' hsel ?_
      rw [processOneExpired_sessions]
      exact htop

/-- C8: one run of `processExpiredCompetitions` preserves every
competition's identity and end time, leaves no competition that is both
active and expired (every `isActive ∧ endTime ≤ now` competition is marked
inactive), marks `winnersSelected` on every expired competition that had
winners not yet selected and at least one eligible session (the top-3
auto-selection), and running it again immediately afterwards is a no-op:
the second run returns the state of the first run unchanged. -/
theorem processExpired_idempotent (db : Db) (now : Int) (adminId : Nat) :
    ((processExpiredCompetitions db now adminId).competitions.map fun c => (c.id, c.endTime)) =
      (db.competitions.map fun c => (c.id, c.endTime)) ∧
    (∀ c ∈ (processExpiredCompetitions db now adminId).competitions,
      c.isActive = true → ¬(c.endTime ≤ now)) ∧
    (∀ e ∈ db.competitions, e.isActive = true → e.endTime ≤ now →
      e.winnersSelected = false →
      topPlayers db.sessions e.id (minStreakSetting db) 3 ≠ [] →
      ∀ c' ∈ (processExpiredCompetitions db now adminId).competitions, c'.id = e.id →
        c'.winnersSelected = true) ∧
    processExpiredCompetitions (processExpiredCompetitions db now adminId) now adminId =
      processExpiredCompetitions db now adminId := by
  have h2 : ∀ c ∈ (processExpiredCompetitions db now adminId).competitions,
      c.isActive = true → ¬(c.endTime ≤ now) := by
    unfold processExpiredCompetitions
    apply processExpired_fold_inactive
    intro c hc hact hend
    exact ⟨c, List.mem_filter.mpr ⟨hc, by simp [hact, hend]⟩, rfl⟩
  refine ⟨?_, h2, ?_, ?_⟩
  · unfold processExpiredCompetitions
    exact processExpired_fold_proj _ _ _ _
  · intro e he hact hend hsel htop
    unfold processExpiredCompetitions
    refine processExpired_fold_selects (minStreakSetting db) adminId _ db e ?_ hsel htop
    exact List.mem_filter.mpr ⟨he, by simp [hact, hend]⟩
  · have hfil : expiredActive (processExpiredCompetitions db now adminId).competitions now
        = [] := by
      apply List.filter_eq_nil_iff.mpr
      intro c hc
      simp only [Bool.and_eq_true, decide_eq_true_eq, not_and]
      intro hact hend
      exact h2 c hc hact hend
    show (expiredActive (processExpiredCompetitions db now adminId).competitions now).foldl
        (processOneExpired (minStreakSetting (processExpiredCompetitions db now adminId)) adminId)
        (processExpiredCompetitions db now adminId) = processExpiredCompetitions db now adminId
    rw [hfil, List.foldl_nil]


def exDbC8 : Db :=
  { settings := some exSettings
    competitions := [{ exComp with endTime := 50 }]
    sessions := [mkSess 1 7 12]
    flips := []
    achievements := []
    winners := []
    prizes := []
    nextCompetitionId := 2
    nextSessionId := 2
    nextFlipId := 1 }

def exC8c : Competition :=
  { exComp with endTime := 50, isActive := false, winnersSelected := true,
                winnerUserId := some 7 }

theorem processExpired_idempotent_witness :
    exC8c.winnersSelected = true ∧
    processExpiredCompetitions (processExpiredCompetitions exDbC8 100 1) 100 1 =
      processExpiredCompetitions exDbC8 100 1 :=
  ⟨(processExpired_idempotent exDbC8 100 1).2.2.1 { exComp with endTime := 50 } (by decide)
      rfl (by decide) rfl (by decide) exC8c (by decide) rfl,
   (processExpired_idempotent exDbC8 100 1).2.2.2⟩

/-! ## C9: the public leaderboard user rank -/


/-- C9: for an authenticated user querying the public leaderboard of a
competition, a user rank is returned iff the user's session exists and its
`bestHeadsStreak` reaches `minStreakForLeaderboard`, and when returned it
equals one plus the number of eligible sessions of the competition that
are strictly ahead: strictly greater `bestHeadsStreak`, or equal
`bestHeadsStreak` and strictly greater `totalHeads` (settings are assumed
present with the spec's `minStreakForLeaderboard ≥ 1` invariant). -/
theorem userRank_spec (db : Db) (competition : Competition) (userId : Nat) (st : Settings)
    (hset : db.settings = some st) (hmin : 1 ≤ st.minStreakForLeaderboard) :
    ((getLeaderboardUserRank db competition userId).isSome = true ↔
      ∃ s, findSession db.sessions competition.id userId = some s ∧
        st.minStreakForLeaderboard ≤ s.bestHeadsStreak) ∧
    (∀ s, findSession db.sessions competition.id userId = some s →
      st.minStreakForLeaderboard ≤ s.bestHeadsStreak →
      getLeaderboardUserRank db competition userId =
        some (1 + db.sessions.countP fun t =>
          decide (t.competitionId = competition.id ∧
            st.minStreakForLeaderboard ≤ t.bestHeadsStreak ∧
            (s.bestHeadsStreak < t.bestHeadsStreak ∨
             (t.bestHeadsStreak = s.bestHeadsStreak ∧ s.totalHeads < t.totalHeads))))) := by
  have hms : minStreakSetting db = st.minStreakForLeaderboard :=
    minStreakSetting_eq db st hset hmin
  constructor
  · unfold getLeaderboardUserRank
    rw [hms]
    cases hsf : findSession db.sessions competition.id userId with
    | none => simp
    | some s =>
      dsimp only
      by_cases hth : st.minStreakForLeaderboard ≤ s.bestHeadsStreak
      · rw [if_pos hth]
        simp [hth]
      · rw [if_neg hth]
        simp [hth]
  · intro s hsf hth
    unfold getLeaderboardUserRank
    rw [hms, hsf]
    dsimp only
    rw [if_pos hth]
    have hcnt : (db.sessions.countP fun t =>
        t.competitionId == competition.id &&
        decide (st.minStreakForLeaderboard ≤ t.bestHeadsStreak) &&
        (decide (s.bestHeadsStreak < t.bestHeadsStreak) ||
         (t.bestHeadsStreak == s.bestHeadsStreak &&
          decide (s.totalHeads < t.totalHeads)))) =
        db.sessions.countP fun t =>
          decide (t.competitionId = competition.id ∧
            st.minStreakForLeaderboard ≤ t.bestHeadsStreak ∧
            (s.bestHeadsStreak < t.bestHeadsStreak ∨
             (t.bestHeadsStreak = s.bestHeadsStreak ∧ s.totalHeads < t.totalHeads))) := by
      apply List.countP_congr
      intro t _
      simp [and_assoc]
    rw [hcnt, Nat.add_comm]


theorem userRank_spec_witness :
    getLeaderboardUserRank exDbC6 { exComp with isActive := false } 8 =
      some (1 + exDbC6.sessions.countP fun t =>
        decide (t.competitionId = 1 ∧
          exSettings.minStreakForLeaderboard ≤ t.bestHeadsStreak ∧
          ((mkSess 2 8 9).bestHeadsStreak < t.bestHeadsStreak ∨
           (t.bestHeadsStreak = (mkSess 2 8 9).bestHeadsStreak ∧
            (mkSess 2 8 9).totalHeads < t.totalHeads)))) :=
  (userRank_spec exDbC6 { exComp with isActive := false } 8 exSettings rfl (by decide)).2
    (mkSess 2 8 9) (by decide) (by decide)

end DimesApi
